import Mathlib

/-!
# Verification of the Foundry pipeline core

A shallow embedding of the Foundry workflow engine
(`foundry/pipeline.py`, `foundry/human_in_the_loop.py`,
`foundry/models.py`, `production_run/app/main.py`) together with
proofs about the spec's claims on it.

JSON payloads (the `input_data`, `pipeline_context`, `initial_ai_output`,
`corrected_output` and `context_data` columns) are modelled as flat
association lists `List (String × String)`.  The claims treat these blobs
opaquely except for (a) Python truthiness, which only needs emptiness to
be observable, and (b) the `context_data['job_id']` lookup used by the
resolution path, so a flat map is a faithful carrier for them.
-/

namespace Foundry

/-- A JSON-object payload: flat association list of string keys/values.
The empty list plays the role of the empty dict `\x7b\x7d`, which is falsy
in Python. -/
abbrev Ctx := List (String × String)

/-- Embedding of the `Job` ORM model (`foundry/models.py`, class `Job`):
`id`, `owner_id`, `status` (default `"pending_correction"`), `input_data`,
`initial_ai_output`, `corrected_output`, `pipeline_context`,
`error_message`.  Timestamps and ORM relationships are omitted: no claim
mentions them. -/
structure JobRec where
  id : Nat
  owner_id : Nat
  status : String
  input_data : Ctx
  initial_ai_output : Option Ctx
  corrected_output : Option Ctx
  pipeline_context : Option Ctx
  error_message : Option String
deriving DecidableEq

/-- Outcome of invoking one `Phase.process` body: a normal return of the
updated context, a raised `PhaseExecutionError` carrying its message
(`pipeline.py:14-16`), or any other raised exception (`defect`), which the
engine does not catch (`pipeline.py:97` only catches `PhaseExecutionError`). -/
inductive PhaseOutcome where
  | ok (ctx : Ctx)
  | phaseError (msg : String)
  | defect (msg : String)
deriving DecidableEq

/-- Embedding of one `Phase` object as the engine consumes it
(`pipeline.py:18-45`).

* `name` — the `name` property (`pipeline.py:24-27`).
* `acceptsDbSession` — whether the phase's `process` signature has the
  `db_session` parameter.  The engine invokes
  `phase.process(context, db_session=self.db)` (`pipeline.py:87`); a
  subclass whose `process` takes only `(self, context)` — such as
  `HumanInTheLoopPhase.process` (`human_in_the_loop.py:67`) — makes that
  call raise `TypeError` at argument binding, before the body runs.
* `statusWrite` — the job status the phase itself writes *and commits*
  through the store handle during a successful execution, if any (the
  Gate does exactly this: `human_in_the_loop.py:105-107` sets
  `job.status = "pending_clarification"` and commits).  `none` for phases
  that do not touch the job record.
* `process` — the body: current context in, outcome out. -/
structure PhaseM where
  name : String
  acceptsDbSession : Bool
  statusWrite : Ctx → Option String
  process : Ctx → PhaseOutcome

/-- The engine's checkpoint status label for a phase
(`pipeline.py:92`: `job.status = f"completed_phase:\x7bphase.name\x7d"`). -/
def checkpointStatus (p : PhaseM) : String :=
  "completed_phase:" ++ p.name

/-- `context = job.pipeline_context or job.input_data` (`pipeline.py:76`).
Python's `or` returns the right operand whenever the left is *falsy*, and
both `None` and the empty dict are falsy, so a present-but-empty persisted
context is skipped in favour of `input_data`. -/
def initContext (job : JobRec) : Ctx :=
  match job.pipeline_context with
  | none => job.input_data
  | some c => if c = [] then job.input_data else c

/-- Result of the `for phase in self.phases` loop (`pipeline.py:81-103`):
either every phase completed (`ok`, carrying the last committed job record
and the working context), or a `PhaseExecutionError` was caught and the
failure record committed (`failed`), or an uncaught exception escaped
(`raised`, carrying the last committed record and the exception message). -/
inductive LoopRes where
  | ok (j : JobRec) (ctx : Ctx)
  | failed (j : JobRec)
  | raised (j : JobRec) (msg : String)
deriving DecidableEq

/-- The record committed by the engine's resilience checkpoint
(`pipeline.py:91-94`): `pipeline_context` set to the phase's returned
context, `status` set to the checkpoint label, committed in one
`self.db.commit()`. -/
def checkpointRec (j : JobRec) (p : PhaseM) (ctx2 : Ctx) : JobRec :=
  { j with pipeline_context := some ctx2, status := checkpointStatus p }

/-- The records a phase itself commits during a successful execution:
one status write at most (as the Gate does, `human_in_the_loop.py:105-107`). -/
def midCommits (j : JobRec) (p : PhaseM) (ctx : Ctx) : List JobRec :=
  match p.statusWrite ctx with
  | some s => [{ j with status := s }]
  | none => []

/-- The record committed on a caught `PhaseExecutionError`
(`pipeline.py:97-101`): `status = "failed"`, `error_message = str(e)`. -/
def failedRec (j : JobRec) (msg : String) : JobRec :=
  { j with status := "failed", error_message := some msg }

/-- The engine's phase loop (`pipeline.py:81-103`).  `j` is the job record
as last committed; `ctx` is the working context.  Returns the list of
database states committed by the loop, in commit order, together with the
loop's result.

Per phase: if its `process` signature cannot accept the `db_session`
keyword the call itself raises `TypeError` (uncaught, nothing committed).
Otherwise the body runs; on a normal return the phase's own committed
status write (if any) is followed by the engine's resilience checkpoint
(`pipeline.py:91-94`: set `pipeline_context` and
`status = "completed_phase:<name>"`, commit); on `PhaseExecutionError` the
engine commits `status = "failed"` and `error_message` and returns
(`pipeline.py:97-103`); any other exception propagates with no commit. -/
def phaseLoop (j : JobRec) (ctx : Ctx) : List PhaseM → List JobRec × LoopRes
  | [] => ([], .ok j ctx)
  | p :: rest =>
    if p.acceptsDbSession = false then
      ([], .raised j "TypeError")
    else
      match p.process ctx with
      | .ok ctx2 =>
        (midCommits j p ctx ++
          checkpointRec j p ctx2 :: (phaseLoop (checkpointRec j p ctx2) ctx2 rest).1,
         (phaseLoop (checkpointRec j p ctx2) ctx2 rest).2)
      | .phaseError msg => ([failedRec j msg], .failed (failedRec j msg))
      | .defect msg => ([], .raised j msg)

/-- Overall outcome of `Pipeline.run`: the job id was unknown
(`pipeline.py:71-73`), or `run` returned normally (carrying the final
committed record), or an uncaught exception propagated to the caller. -/
inductive RunResult where
  | jobNotFound
  | finished (final : JobRec)
  | propagated (final : JobRec) (msg : String)
deriving DecidableEq

/-- A completed `Pipeline.run` invocation: the committed database states in
commit order, and the outcome. -/
structure RunOut where
  trace : List JobRec
  result : RunResult
deriving DecidableEq

/-- Embedding of `Pipeline.run` (`pipeline.py:63-109`).  Load the job
(`none` models a missing id: print and return, no state change);
initialize the context (`pipeline.py:76`); commit `status = "in_progress"`
(`pipeline.py:78-79`); run the loop; if every phase completed, commit
`status = "completed"` and copy the final context into
`initial_ai_output` (`pipeline.py:105-108`). -/
def pipelineRun (phases : List PhaseM) (jobLoad : Option JobRec) : RunOut :=
  match jobLoad with
  | none => { trace := [], result := .jobNotFound }
  | some job =>
    let ctx := initContext job
    let j1 : JobRec := { job with status := "in_progress" }
    let lp := phaseLoop j1 ctx phases
    match lp.2 with
    | .ok jk ctxF =>
      let jc : JobRec := { jk with status := "completed", initial_ai_output := some ctxF }
      { trace := j1 :: lp.1 ++ [jc], result := .finished jc }
    | .failed jf => { trace := j1 :: lp.1, result := .finished jf }
    | .raised jr msg => { trace := j1 :: lp.1, result := .propagated jr msg }

/-- The context produced by threading a context through a phase list when
every phase accepts the engine's calling convention and returns normally;
`none` as soon as some phase raises.  This is the pure success condition
used as a hypothesis in the theorems; it agrees with `phaseLoop` wherever
it is `some`. -/
def chain (ctx : Ctx) : List PhaseM → Option Ctx
  | [] => some ctx
  | p :: rest =>
    if p.acceptsDbSession = false then none
    else
      match p.process ctx with
      | .ok ctx2 => chain ctx2 rest
      | .phaseError _ => none
      | .defect _ => none

/-- Embedding of the `FoundryClarificationRequest` ORM model
(`foundry/models.py:79-109`): `id`, `owner_id`, `request_type`,
`status` (default `"pending"`), `context_data`, `resolution_data`.
Note the model has **no** `job_id` column; any reference to the
originating job lives only inside `context_data` when a detector puts it
there. -/
structure ClarReq where
  id : Nat
  owner_id : Nat
  request_type : String
  status : String
  context_data : Ctx
  resolution_data : Option Ctx
deriving DecidableEq

/-- A request references a job id in the only way the code base does:
its `context_data` carries a `"job_id"` entry for that id (the convention
used by `UnlinkedProductDetector`, `human_in_the_loop.py:137-141`, and
read back by the resolution endpoints via
`context_data['job_id']`). -/
def ClarReq.referencesJob (r : ClarReq) (jid : Nat) : Prop :=
  r.context_data.lookup "job_id" = some (toString jid)

instance (r : ClarReq) (jid : Nat) : Decidable (r.referencesJob jid) := by
  unfold ClarReq.referencesJob; infer_instance

/-- The database visible to the Gate and the resolution path: the
`foundry_jobs` and `foundry_clarification_requests` tables, plus the
store's id sequence for newly inserted requests. -/
structure Store where
  jobs : List JobRec
  requests : List ClarReq
  nextRequestId : Nat
deriving DecidableEq

/-- `db_session.get(Job, job_id)`. -/
def Store.getJob (st : Store) (jid : Nat) : Option JobRec :=
  st.jobs.find? (fun j => j.id == jid)

/-- `db.get(FoundryClarificationRequest, request_id)`. -/
def Store.getReq (st : Store) (rid : Nat) : Option ClarReq :=
  st.requests.find? (fun r => r.id == rid)

/-- Update the stored job with the given id. -/
def Store.updateJob (st : Store) (jid : Nat) (j2 : JobRec) : Store :=
  { st with jobs := st.jobs.map (fun j => if j.id == jid then j2 else j) }

/-- Update the stored request with the given id. -/
def Store.updateReq (st : Store) (rid : Nat) (r2 : ClarReq) : Store :=
  { st with requests := st.requests.map (fun r => if r.id == rid then r2 else r) }

/-- One entry of a Detector result (`human_in_the_loop.py:29-44`): a
`request_type` tag plus the `context_data` blob. -/
structure DetectEntry where
  request_type : String
  context_data : Ctx
deriving DecidableEq

/-- The `FoundryClarificationRequest` rows the Gate inserts for a
detector result (`human_in_the_loop.py:97-103`): `owner_id` copied from
the job, `request_type` and `context_data` copied from the entry, status
left at its default `"pending"`, `resolution_data` at its default
`NULL`; ids assigned consecutively by the store. -/
def mkRequests (ownerId : Nat) (nextId : Nat) : List DetectEntry → List ClarReq
  | [] => []
  | e :: rest =>
    { id := nextId, owner_id := ownerId, request_type := e.request_type,
      status := "pending", context_data := e.context_data,
      resolution_data := none } :: mkRequests ownerId (nextId + 1) rest

/-- Embedding of `HumanInTheLoopPhase.process` (`human_in_the_loop.py:67-116`)
invoked directly (the body, not the engine's calling convention).

`jobIdArg` models `context.get('job_id')` and `hasSession` models the
truthiness of `context.get('db_session')`; the body raises
`PhaseExecutionError` when either is falsy (`job_id` of `0` is falsy in
Python) or when the job id is unknown.  Otherwise it runs the detector;
for a non-empty result it inserts one request per entry, sets the job's
status to `"pending_clarification"` and commits; for an empty result it
touches nothing.  Either way it returns the context unchanged. -/
def hitlProcess (detect : JobRec → List DetectEntry) (jobIdArg : Option Nat)
    (hasSession : Bool) (context : Ctx) (st : Store) : PhaseOutcome × Store :=
  match jobIdArg, hasSession with
  | none, _ =>
    (.phaseError "Context must contain 'job_id' and 'db_session'.", st)
  | some 0, _ =>
    (.phaseError "Context must contain 'job_id' and 'db_session'.", st)
  | some _, false =>
    (.phaseError "Context must contain 'job_id' and 'db_session'.", st)
  | some jid, true =>
    match st.getJob jid with
    | none => (.phaseError ("Job " ++ toString jid ++ " not found."), st)
    | some job =>
      let entries := detect job
      if entries = [] then (.ok context, st)
      else
        let st2 : Store :=
          { (st.updateJob jid { job with status := "pending_clarification" }) with
            requests := st.requests ++ mkRequests job.owner_id st.nextRequestId entries,
            nextRequestId := st.nextRequestId + entries.length }
        (.ok context, st2)

/-- Decimal digits to a number, accumulator style; `none` on a
non-digit.  Structural recursion so that concrete instances evaluate. -/
def digitsToNat (acc : Nat) : List Char → Option Nat
  | [] => some acc
  | c :: rest =>
    if c.isDigit then digitsToNat (acc * 10 + (c.toNat - 48)) rest else none

/-- Reading the numeric `job_id` a detector serialized into
`context_data` back as a number (contexts carry string values in this
embedding, so ids round-trip through their decimal representation). -/
def parseNat (s : String) : Option Nat :=
  match s.data with
  | [] => none
  | l => digitsToNat 0 l

/-- Embedding of the `resolve_clarification` endpoint
(`production_run/app/main.py:103-146`).

* Missing request id: 404 response (`.error`).
* `req_to_resolve.context_data['job_id']`: a missing or non-numeric entry
  raises (`.error`), uncaught.
* `CorrectionHandler.save_correction` (`foundry/correction.py:96-141`):
  missing job raises `ValueError` (`.error`); otherwise the job gets
  `corrected_output` set to the parsed submission and
  `status = "completed"`.  `parseForm` abstracts
  `_parse_form_to_dict(form_data, schema)`; the `CorrectionRecord`
  bookkeeping of `save_correction` is omitted (no claim touches it).
* Finally the request is marked `status = "resolved"` with
  `resolution_data = \x7b"resolved_by": "user"\x7d` and committed
  (`main.py:140-143`).  Note there is **no** check that the request was
  still pending. -/
def resolveClarification (parseForm : Ctx → Ctx) (requestId : Nat)
    (answer : Ctx) (st : Store) : Except String Store :=
  match st.getReq requestId with
  | none => .error "Error: Request not found."
  | some req =>
    match (req.context_data.lookup "job_id").bind parseNat with
    | none => .error "KeyError: 'job_id'"
    | some jid =>
      match st.getJob jid with
      | none => .error ("ValueError: Job with ID " ++ toString jid ++ " not found.")
      | some job =>
        let job2 : JobRec :=
          { job with corrected_output := some (parseForm answer), status := "completed" }
        let req2 : ClarReq :=
          { req with status := "resolved",
                     resolution_data := some [("resolved_by", "user")] }
        .ok ((st.updateJob jid job2).updateReq requestId req2)

/-- `HumanInTheLoopPhase` as a `PhaseM`, i.e. as the engine sees it:
its `process` signature is `(self, context)` with no `db_session`
parameter (`human_in_the_loop.py:67`), so `acceptsDbSession` is `false`;
`gateBody` stands for whatever its body would compute if it could be
reached. -/
def humanInTheLoopPhaseM (gateBody : Ctx → PhaseOutcome) : PhaseM :=
  { name := "HumanInTheLoopPhase", acceptsDbSession := false,
    statusWrite := fun _ => none, process := gateBody }

/-! ## Concrete instances used by witnesses and counterexamples -/

/-- A fresh job as an external producer would hand it to the engine. -/
def jobW : JobRec :=
  { id := 1, owner_id := 1, status := "pending_correction",
    input_data := [("content", "hello")], initial_ai_output := none,
    corrected_output := none, pipeline_context := none, error_message := none }

/-- A well-behaved phase in the style of `ExtractTextPhase`. -/
def phaseA : PhaseM :=
  { name := "ExtractTextPhase", acceptsDbSession := true,
    statusWrite := fun _ => none,
    process := fun c => .ok (c ++ [("extracted_text", "hello")]) }

/-- A well-behaved phase in the style of `ConvertToUppercasePhase`. -/
def phaseB : PhaseM :=
  { name := "ConvertToUppercasePhase", acceptsDbSession := true,
    statusWrite := fun _ => none,
    process := fun c => .ok (c ++ [("uppercased_text", "HELLO")]) }

/-- A phase raising `PhaseExecutionError("")` — an empty message, which
`raise PhaseExecutionError("")` permits. -/
def phaseFailEmpty : PhaseM :=
  { name := "FailingPhase", acceptsDbSession := true,
    statusWrite := fun _ => none, process := fun _ => .phaseError "" }

/-- A phase raising `PhaseExecutionError("bad input")`. -/
def phaseFailBad : PhaseM :=
  { name := "FailingPhase", acceptsDbSession := true,
    statusWrite := fun _ => none, process := fun _ => .phaseError "bad input" }

/-- A phase raising an unclassified exception (e.g. a `RuntimeError`). -/
def phaseDefect : PhaseM :=
  { name := "DefectPhase", acceptsDbSession := true,
    statusWrite := fun _ => none,
    process := fun _ => .defect "RuntimeError: boom" }

/-- A phase that, like a working Gate, writes and commits
`job.status = "pending_clarification"` during its body and then returns
its context unchanged. -/
def phaseGateLike : PhaseM :=
  { name := "GateLikePhase", acceptsDbSession := true,
    statusWrite := fun _ => some "pending_clarification",
    process := fun c => .ok c }

/-- The phase for the re-run counterexample: idempotent on its own
output (it maps its own outputs to themselves), but its output on the
checkpointed context is the empty dict. -/
def phase7 : PhaseM :=
  { name := "EmptyingPhase", acceptsDbSession := true,
    statusWrite := fun _ => none,
    process := fun c =>
      if c = [("y", "2")] then .ok [("z", "9")]
      else if c = [("z", "9")] then .ok [("z", "9")] else .ok [] }

/-- The job for the re-run counterexample: a non-empty checkpoint is
present, so run 1 starts from it. -/
def job7 : JobRec :=
  { id := 1, owner_id := 1, status := "pending_correction",
    input_data := [("y", "2")], initial_ai_output := none,
    corrected_output := none, pipeline_context := some [("x", "1")],
    error_message := none }

/-- The record run 1 of the re-run counterexample commits: completed,
with the empty dict as final context and output. -/
def job7done : JobRec :=
  { id := 1, owner_id := 1, status := "completed",
    input_data := [("y", "2")], initial_ai_output := some [],
    corrected_output := none, pipeline_context := some [],
    error_message := none }

/-- The record run 2 of the re-run counterexample commits: the empty
checkpointed context is falsy, so run 2 restarted from `input_data` and
produced a different output. -/
def job7redone : JobRec :=
  { id := 1, owner_id := 1, status := "completed",
    input_data := [("y", "2")], initial_ai_output := some [("z", "9")],
    corrected_output := none, pipeline_context := some [("z", "9")],
    error_message := none }

/-- A job whose persisted `pipeline_context` is present but empty. -/
def job6 : JobRec :=
  { id := 2, owner_id := 1, status := "completed_phase:SomePhase",
    input_data := [("a", "1")], initial_ai_output := none,
    corrected_output := none, pipeline_context := some [],
    error_message := none }

/-- The job the Gate counterexamples run against. -/
def job3 : JobRec :=
  { id := 3, owner_id := 1, status := "in_progress",
    input_data := [("content", "x")], initial_ai_output := some [],
    corrected_output := none, pipeline_context := none,
    error_message := none }

/-- Store holding `job3` and no requests. -/
def store3 : Store := { jobs := [job3], requests := [], nextRequestId := 1 }

/-- A detector finding nothing. -/
def detectorNone (_ : JobRec) : List DetectEntry := []

/-- A detector finding one ambiguity whose `context_data` does not
mention the job id. -/
def detectorOne (_ : JobRec) : List DetectEntry :=
  [{ request_type := "LINK_PRODUCT", context_data := [] }]

/-- A detector finding one ambiguity that does record the job id in
`context_data`, as `UnlinkedProductDetector` does. -/
def detectorLinked (job : JobRec) : List DetectEntry :=
  [{ request_type := "LINK_PRODUCT",
     context_data := [("job_id", toString job.id)] }]

/-- The job referenced by the resolution counterexample. -/
def job5 : JobRec :=
  { id := 5, owner_id := 1, status := "pending_clarification",
    input_data := [("url", "invoice.jpg")], initial_ai_output := some [],
    corrected_output := none, pipeline_context := none,
    error_message := none }

/-- A clarification request that has **already** been resolved. -/
def reqResolved : ClarReq :=
  { id := 9, owner_id := 1, request_type := "REVIEW_INVOICE",
    status := "resolved", context_data := [("job_id", "5")],
    resolution_data := some [("resolved_by", "user")] }

/-- A clarification request still pending. -/
def reqPending : ClarReq :=
  { id := 10, owner_id := 1, request_type := "REVIEW_INVOICE",
    status := "pending", context_data := [("job_id", "5")],
    resolution_data := none }

/-- Store holding `job5` and both requests. -/
def store5 : Store :=
  { jobs := [job5], requests := [reqResolved, reqPending], nextRequestId := 11 }

/-- The structured answer submitted by the human reviewer. -/
def answer5 : Ctx := [("total", "42")]

/-- A genuinely idempotent phase: it marks the context as done and is a
no-op on contexts already carrying the mark. -/
def phaseIdem : PhaseM :=
  { name := "MarkDonePhase", acceptsDbSession := true,
    statusWrite := fun _ => none,
    process := fun c =>
      if c.lookup "done" = some "1" then .ok c else .ok (c ++ [("done", "1")]) }

/-- The request the Gate creates from `detectorOne`: its `context_data`
is empty, so nothing in the row references the originating job. -/
def requestUnlinked : ClarReq :=
  { id := 1, owner_id := 1, request_type := "LINK_PRODUCT",
    status := "pending", context_data := [], resolution_data := none }

/-- `job5` after the resolution endpoint ran with `answer5`. -/
def job5after : JobRec :=
  { job5 with corrected_output := some answer5, status := "completed" }

/-- `store5` after resolving request 9 (already resolved): the request
row is rewritten to the same resolved state, the job re-corrected. -/
def store5after : Store :=
  { jobs := [job5after], requests := [reqResolved, reqPending], nextRequestId := 11 }

/-- `reqPending` after its (first) resolution: status `"resolved"`,
`resolution_data` set to the audit record — not to the answer. -/
def reqPendingAfter : ClarReq :=
  { reqPending with
    status := "resolved",
    resolution_data := some [("resolved_by", "user")] }

/-- `store5` after resolving the pending request 10. -/
def store5after2 : Store :=
  { jobs := [job5after], requests := [reqResolved, reqPendingAfter], nextRequestId := 11 }

/-! ## Helper lemmas -/

/-- Two equal checkpoint labels name equal phase names. -/
lemma checkpointStatus_inj {a b : PhaseM}
    (h : checkpointStatus a = checkpointStatus b) : a.name = b.name := by
  unfold checkpointStatus at h
  have hd := congrArg String.data h
  rw [String.data_append, String.data_append] at hd
  exact String.ext (List.append_cancel_left hd)

/-- A status string shorter than the `"completed_phase:"` prefix is never
a checkpoint label. -/
lemma ne_checkpointStatus_of_length {s : String} (hs : s.length < 16)
    (p : PhaseM) : s ≠ checkpointStatus p := by
  intro h
  have hl := congrArg String.length h
  unfold checkpointStatus at hl
  rw [String.length_append] at hl
  have h16 : ("completed_phase:" : String).length = 16 := by decide
  omega

/-- `chain` splits across list append. -/
lemma chain_append (pre qs : List PhaseM) :
    ∀ ctx, chain ctx (pre ++ qs) = (chain ctx pre).bind (fun c => chain c qs) := by
  induction pre with
  | nil => intro ctx; simp [chain]
  | cons p rest ih =>
    intro ctx
    simp only [List.cons_append, chain]
    by_cases hp : p.acceptsDbSession = false
    · simp [hp]
    · rw [if_neg hp, if_neg hp]
      cases hproc : p.process ctx with
      | ok ctx2 => simp [ih]
      | phaseError m => simp
      | defect m => simp

/-- In a `Nodup` list of names, equal names at two positions force equal
positions. -/
lemma nodup_name_index (ps : List PhaseM)
    (h : (ps.map PhaseM.name).Nodup) :
    ∀ i j (hi : i < ps.length) (hj : j < ps.length),
      (ps.get ⟨i, hi⟩).name = (ps.get ⟨j, hj⟩).name → i = j := by
  intro i j hi hj he
  have hi2 : i < (ps.map PhaseM.name).length := by simpa using hi
  have hj2 : j < (ps.map PhaseM.name).length := by simpa using hj
  have hmap : (ps.map PhaseM.name).get ⟨i, hi2⟩ = (ps.map PhaseM.name).get ⟨j, hj2⟩ := by
    simp only [List.get_eq_getElem, List.getElem_map]
    simpa using he
  have hfin : (⟨i, hi2⟩ : Fin (ps.map PhaseM.name).length) = ⟨j, hj2⟩ :=
    h.get_inj_iff.mp hmap
  simpa using hfin

/-- When every phase of `ps` succeeds (in the `chain` sense), `phaseLoop`
ends in `ok` with the chained context, and the final committed record
keeps every field of the starting record except `pipeline_context` and
`status`, which reflect the last phase's checkpoint. -/
lemma phaseLoop_of_chain (ps : List PhaseM) :
    ∀ (j : JobRec) (ctx cF : Ctx), chain ctx ps = some cF →
    ∃ tr jE, phaseLoop j ctx ps = (tr, .ok jE cF) ∧
      jE.id = j.id ∧ jE.owner_id = j.owner_id ∧
      jE.input_data = j.input_data ∧
      jE.initial_ai_output = j.initial_ai_output ∧
      jE.corrected_output = j.corrected_output ∧
      jE.error_message = j.error_message ∧
      ((ps = [] ∧ jE = j) ∨
       (ps ≠ [] ∧ jE.pipeline_context = some cF ∧
        ∃ pl, ps.getLast? = some pl ∧ jE.status = checkpointStatus pl)) := by
  induction ps with
  | nil =>
    intro j ctx cF h
    simp only [chain, Option.some.injEq] at h
    subst h
    exact ⟨[], j, by simp [phaseLoop], rfl, rfl, rfl, rfl, rfl, rfl,
      Or.inl ⟨rfl, rfl⟩⟩
  | cons p rest ih =>
    intro j ctx cF h
    simp only [chain] at h
    by_cases hp : p.acceptsDbSession = false
    · simp [hp] at h
    · rw [if_neg hp] at h
      cases hproc : p.process ctx with
      | ok ctx2 =>
        rw [hproc] at h
        obtain ⟨tr, jE, hloop, hid, hown, hin, hout, hcorr, herr, hlast⟩ :=
          ih (checkpointRec j p ctx2) ctx2 cF h
        refine ⟨midCommits j p ctx ++ checkpointRec j p ctx2 :: tr, jE, ?_,
          ?_, ?_, ?_, ?_, ?_, ?_, ?_⟩
        · simp only [phaseLoop, if_neg hp, hproc, hloop]
        · rw [hid]; simp [checkpointRec]
        · rw [hown]; simp [checkpointRec]
        · rw [hin]; simp [checkpointRec]
        · rw [hout]; simp [checkpointRec]
        · rw [hcorr]; simp [checkpointRec]
        · rw [herr]; simp [checkpointRec]
        · right
          refine ⟨by simp, ?_, ?_⟩
          · rcases hlast with ⟨hrest, hjE⟩ | ⟨_, hpc, _⟩
            · subst hrest
              simp only [chain, Option.some.injEq] at h
              subst h
              rw [hjE]
              simp [checkpointRec]
            · exact hpc
          · rcases hlast with ⟨hrest, hjE⟩ | ⟨hne, _, pl, hgl, hst⟩
            · subst hrest
              refine ⟨p, by simp, by rw [hjE]; simp [checkpointRec]⟩
            · refine ⟨pl, ?_, hst⟩
              cases rest with
              | nil => exact absurd rfl hne
              | cons q rest2 =>
                rw [List.getLast?_cons_cons]
                exact hgl
      | phaseError m => rw [hproc] at h; exact absurd h (by simp)
      | defect m => rw [hproc] at h; exact absurd h (by simp)

/-- `phaseLoop` splits across append when the prefix succeeds. -/
lemma phaseLoop_append (pre : List PhaseM) :
    ∀ (qs : List PhaseM) (j : JobRec) (ctx : Ctx) (tr : List JobRec)
      (jE : JobRec) (c : Ctx),
      phaseLoop j ctx pre = (tr, .ok jE c) →
      phaseLoop j ctx (pre ++ qs) =
        (tr ++ (phaseLoop jE c qs).1, (phaseLoop jE c qs).2) := by
  induction pre with
  | nil =>
    intro qs j ctx tr jE c h
    simp only [phaseLoop, Prod.mk.injEq, LoopRes.ok.injEq] at h
    obtain ⟨h1, h2, h3⟩ := h
    subst h1; subst h2; subst h3
    simp
  | cons p rest ih =>
    intro qs j ctx tr jE c h
    by_cases hp : p.acceptsDbSession = false
    · simp only [phaseLoop, if_pos hp] at h
      simp at h
    · cases hproc : p.process ctx with
      | ok ctx2 =>
        simp only [List.cons_append, phaseLoop, if_neg hp, hproc,
          List.append_eq, Prod.mk.injEq] at h ⊢
        obtain ⟨h1, h2⟩ := h
        have hsplit :
            phaseLoop (checkpointRec j p ctx2) ctx2 rest =
              ((phaseLoop (checkpointRec j p ctx2) ctx2 rest).1,
               LoopRes.ok jE c) := by
          rw [← h2]
        rw [ih qs _ ctx2 _ jE c hsplit]
        subst h1
        simp
      | phaseError m =>
        simp only [phaseLoop, if_neg hp, hproc, Prod.mk.injEq] at h
        exact absurd h.2 (by simp)
      | defect m =>
        simp only [phaseLoop, if_neg hp, hproc, Prod.mk.injEq] at h
        exact absurd h.2 (by simp)

/-- Shape of every record the phase loop commits: a failure record, a
status write performed by a phase's own body, or an engine checkpoint
whose `pipeline_context` is exactly the chained context of the phases up
to and including the checkpointed one. -/
lemma phaseLoop_trace_shape (ps : List PhaseM) :
    ∀ (j : JobRec) (ctx : Ctx), ∀ st ∈ (phaseLoop j ctx ps).1,
      st.status = "failed" ∨
      (∃ p, p ∈ ps ∧ ∃ c s, p.statusWrite c = some s ∧ st.status = s) ∨
      (∃ i, ∃ hi : i < ps.length,
        st.status = checkpointStatus (ps.get ⟨i, hi⟩) ∧
        st.pipeline_context = chain ctx (ps.take (i + 1))) := by
  induction ps with
  | nil => intro j ctx st hst; simp [phaseLoop] at hst
  | cons p rest ih =>
    intro j ctx st hst
    by_cases hp : p.acceptsDbSession = false
    · simp [phaseLoop, if_pos hp] at hst
    · cases hproc : p.process ctx with
      | ok ctx2 =>
        simp only [phaseLoop, if_neg hp, hproc] at hst
        rw [List.mem_append] at hst
        rcases hst with hmid | hrest
        · right; left
          unfold midCommits at hmid
          cases hsw : p.statusWrite ctx with
          | none => rw [hsw] at hmid; simp at hmid
          | some s =>
            rw [hsw] at hmid
            simp only [List.mem_singleton] at hmid
            subst hmid
            exact ⟨p, by simp, ctx, s, hsw, rfl⟩
        · rw [List.mem_cons] at hrest
          rcases hrest with hckpt | htail
          · subst hckpt
            right; right
            refine ⟨0, by simp, by simp [checkpointRec], ?_⟩
            simp only [List.take_succ_cons, List.take_zero, chain,
              if_neg hp, hproc, checkpointRec]
          · rcases ih (checkpointRec j p ctx2) ctx2 st htail with
              hfail | hmid2 | ⟨i, hi, hst2, hctx2⟩
            · exact Or.inl hfail
            · right; left
              obtain ⟨q, hq, c, s, hsw, hss⟩ := hmid2
              exact ⟨q, by simp [hq], c, s, hsw, hss⟩
            · right; right
              refine ⟨i + 1, by simpa using Nat.succ_lt_succ hi, ?_, ?_⟩
              · simpa using hst2
              · rw [List.take_succ_cons]
                simp only [chain, if_neg hp, hproc]
                exact hctx2
      | phaseError m =>
        simp only [phaseLoop, if_neg hp, hproc, List.mem_singleton] at hst
        subst hst
        left
        simp [failedRec]
      | defect m =>
        simp [phaseLoop, if_neg hp, hproc] at hst

/-- Updating the element a `find?` located makes `find?` return the
replacement, provided the replacement still satisfies the predicate. -/
lemma find?_map_update {α : Type} (p : α → Bool) (f2 : α) (hp : p f2 = true) :
    ∀ (l : List α) (a : α), l.find? p = some a →
      (l.map (fun x => if p x then f2 else x)).find? p = some f2 := by
  intro l
  induction l with
  | nil => intro a h; simp at h
  | cons b tl ih =>
    intro a h
    by_cases hb : p b = true
    · simp only [List.map_cons, List.find?_cons, hb, if_pos hb] at h ⊢
      simp [hp]
    · rw [List.find?_cons_of_neg _ hb] at h
      simp only [List.map_cons, if_neg hb]
      rw [List.find?_cons_of_neg _ hb]
      exact ih a h

/-- Dropping the last element of `a :: (l ++ [b])` leaves `a :: l`. -/
lemma dropLast_cons_concat {α : Type} (a : α) (l : List α) (b : α) :
    (a :: (l ++ [b])).dropLast = a :: l := by
  rw [← List.cons_append, List.dropLast_concat]

/-- `mkRequests` inserts one row per detector entry. -/
lemma mkRequests_length (ownerId : Nat) (es : List DetectEntry) :
    ∀ nextId, (mkRequests ownerId nextId es).length = es.length := by
  induction es with
  | nil => intro nextId; simp [mkRequests]
  | cons e rest ih => intro nextId; simp [mkRequests, ih]

/-- Every row `mkRequests` inserts is pending, owned by the job's owner,
and carries some detector entry's tag and context verbatim. -/
lemma mkRequests_mem (ownerId : Nat) (es : List DetectEntry) :
    ∀ nextId r, r ∈ mkRequests ownerId nextId es →
      r.status = "pending" ∧ r.owner_id = ownerId ∧ r.resolution_data = none ∧
      ∃ e ∈ es, r.request_type = e.request_type ∧ r.context_data = e.context_data := by
  induction es with
  | nil => intro nextId r h; simp [mkRequests] at h
  | cons e rest ih =>
    intro nextId r h
    rw [mkRequests, List.mem_cons] at h
    rcases h with h | h
    · subst h
      exact ⟨rfl, rfl, rfl, e, by simp, rfl, rfl⟩
    · obtain ⟨h1, h2, h3, e2, he2, h4, h5⟩ := ih (nextId + 1) r h
      exact ⟨h1, h2, h3, e2, by simp [he2], h4, h5⟩

/-! ## Claim theorems -/

/-- C2: for every job and every Phase list in which every Phase completes
without failure, after `Pipeline.run` the persisted Job Record has
`status == "completed"` and its output field (`initial_ai_output`) equals
the context returned by the last Phase. -/
theorem run_all_phases_complete (job : JobRec) (ps : List PhaseM) (cF : Ctx)
    (h : chain (initContext job) ps = some cF) :
    ∃ jc, (pipelineRun ps (some job)).result = .finished jc ∧
      jc.status = "completed" ∧
      jc.initial_ai_output = some cF ∧
      (∀ qs pl cPrev, ps = qs ++ [pl] →
        chain (initContext job) qs = some cPrev → pl.process cPrev = .ok cF) := by
  obtain ⟨tr, jE, hloop, _, _, _, _, _, _, _⟩ :=
    phaseLoop_of_chain ps { job with status := "in_progress" } (initContext job) cF h
  refine ⟨{ jE with status := "completed", initial_ai_output := some cF },
    ?_, rfl, rfl, ?_⟩
  · simp only [pipelineRun, hloop]
  · intro qs pl cPrev hps hqs
    rw [hps, chain_append qs [pl] (initContext job), hqs] at h
    simp only [Option.some_bind] at h
    simp only [chain] at h
    by_cases hpl : pl.acceptsDbSession = false
    · rw [if_pos hpl] at h; simp at h
    · rw [if_neg hpl] at h
      cases hpp : pl.process cPrev with
      | ok c2 =>
        rw [hpp] at h
        have h2 : some c2 = some cF := h
        injection h2 with h3
        rw [h3]
      | phaseError m =>
        rw [hpp] at h
        have h2 : (none : Option Ctx) = some cF := h
        simp at h2
      | defect m =>
        rw [hpp] at h
        have h2 : (none : Option Ctx) = some cF := h
        simp at h2

/-- C2 witness: on the fresh job `jobW`, the two example phases complete
and the persisted record is completed with the final context as output. -/
theorem run_all_phases_complete_witness :
    chain (initContext jobW) [phaseA, phaseB] =
      some [("content", "hello"), ("extracted_text", "hello"),
        ("uppercased_text", "HELLO")] ∧
    (∃ jc, (pipelineRun [phaseA, phaseB] (some jobW)).result = .finished jc ∧
      jc.status = "completed" ∧
      jc.initial_ai_output =
        some [("content", "hello"), ("extracted_text", "hello"),
          ("uppercased_text", "HELLO")] ∧
      (∀ qs pl cPrev, [phaseA, phaseB] = qs ++ [pl] →
        chain (initContext jobW) qs = some cPrev →
          pl.process cPrev =
            .ok [("content", "hello"), ("extracted_text", "hello"),
              ("uppercased_text", "HELLO")])) :=
  ⟨by decide,
   run_all_phases_complete jobW [phaseA, phaseB]
     [("content", "hello"), ("extracted_text", "hello"),
       ("uppercased_text", "HELLO")] (by decide)⟩

/-- C1 (amended): if the k-th Phase raises `PhaseExecutionError`, the
persisted record has `status == "failed"`, its error field equals the
failure's message (hence is non-empty whenever the message is),
no Phase after the k-th is invoked in that run, and the persisted
context and output reflect only the effects of Phases `1..k-1`. -/
theorem run_phase_error_marks_failed (job : JobRec) (pre post : List PhaseM)
    (pf : PhaseM) (cPre : Ctx) (msg : String)
    (hpre : chain (initContext job) pre = some cPre)
    (hacc : pf.acceptsDbSession = true)
    (hfail : pf.process cPre = .phaseError msg) :
    ∃ jf, (pipelineRun (pre ++ pf :: post) (some job)).result = .finished jf ∧
      jf.status = "failed" ∧
      jf.error_message = some msg ∧
      jf.initial_ai_output = job.initial_ai_output ∧
      (pre = [] → jf.pipeline_context = job.pipeline_context) ∧
      (pre ≠ [] → jf.pipeline_context = some cPre) ∧
      ∀ post2, pipelineRun (pre ++ pf :: post2) (some job) =
        pipelineRun (pre ++ pf :: post) (some job) := by
  obtain ⟨tr, jE, hloop, hid, hown, hin, hout, hcorr, herr, hlast⟩ :=
    phaseLoop_of_chain pre { job with status := "in_progress" }
      (initContext job) cPre hpre
  have hnotfalse : ¬ pf.acceptsDbSession = false := by simp [hacc]
  have hstep : ∀ post2 : List PhaseM, phaseLoop jE cPre (pf :: post2) =
      ([failedRec jE msg], .failed (failedRec jE msg)) := by
    intro post2
    simp only [phaseLoop, if_neg hnotfalse, hfail]
  have hrun : ∀ post2 : List PhaseM,
      pipelineRun (pre ++ pf :: post2) (some job) =
        { trace := { job with status := "in_progress" } :: (tr ++ [failedRec jE msg]),
          result := .finished (failedRec jE msg) } := by
    intro post2
    have happ := phaseLoop_append pre (pf :: post2) _ (initContext job) tr jE cPre hloop
    simp only [pipelineRun, happ, hstep]
  refine ⟨failedRec jE msg, ?_, rfl, rfl, ?_, ?_, ?_, ?_⟩
  · rw [hrun post]
  · simpa [failedRec] using hout
  · intro hpre0
    rcases hlast with ⟨_, hjE⟩ | ⟨hne, _, _⟩
    · rw [hjE]; simp [failedRec]
    · exact absurd hpre0 hne
  · intro hne
    rcases hlast with ⟨hpre0, _⟩ | ⟨_, hpc, _⟩
    · exact absurd hpre0 hne
    · simpa [failedRec] using hpc
  · intro post2
    rw [hrun post2, hrun post]

/-- C1 counterexample: `raise PhaseExecutionError("")` is legal, and then
the persisted error field equals the empty string — refuting the clause
that the error field is always non-empty when a Phase raises
`PhaseExecutionError`. -/
theorem run_failed_empty_error_counterexample :
    (pipelineRun [phaseFailEmpty] (some jobW)).result =
      .finished { jobW with status := "failed", error_message := some "" } ∧
    ({ jobW with status := "failed", error_message := some "" } : JobRec).error_message
      = some "" ∧
    ("" : String).length = 0 :=
  ⟨by decide, rfl, rfl⟩

/-- C1 witness: phase 2 of `[phaseA, phaseFailBad, phaseB]` fails with
message `"bad input"`; the record is failed with that message and the
context of phase 1 only. -/
theorem run_phase_error_marks_failed_witness :
    chain (initContext jobW) [phaseA] =
      some [("content", "hello"), ("extracted_text", "hello")] ∧
    phaseFailBad.acceptsDbSession = true ∧
    phaseFailBad.process [("content", "hello"), ("extracted_text", "hello")] =
      .phaseError "bad input" ∧
    (∃ jf, (pipelineRun ([phaseA] ++ phaseFailBad :: [phaseB]) (some jobW)).result =
        .finished jf ∧
      jf.status = "failed" ∧
      jf.error_message = some "bad input" ∧
      jf.initial_ai_output = jobW.initial_ai_output ∧
      ([phaseA] = ([] : List PhaseM) → jf.pipeline_context = jobW.pipeline_context) ∧
      ([phaseA] ≠ ([] : List PhaseM) →
        jf.pipeline_context = some [("content", "hello"), ("extracted_text", "hello")]) ∧
      ∀ post2, pipelineRun ([phaseA] ++ phaseFailBad :: post2) (some jobW) =
        pipelineRun ([phaseA] ++ phaseFailBad :: [phaseB]) (some jobW)) :=
  ⟨by decide, rfl, by decide,
   run_phase_error_marks_failed jobW [phaseA] [phaseB] phaseFailBad
     [("content", "hello"), ("extracted_text", "hello")] "bad input"
     (by decide) rfl (by decide)⟩

/-- C8: a Phase raising anything other than `PhaseExecutionError` is not
caught: the exception propagates to the Engine's caller and the Job
Record still holds the last committed checkpoint — the context of the
last successful Phase, never a half-applied one. -/
theorem run_defect_propagates (job : JobRec) (pre post : List PhaseM)
    (pd : PhaseM) (cPre : Ctx) (msg : String)
    (hpre : chain (initContext job) pre = some cPre)
    (hacc : pd.acceptsDbSession = true)
    (hdef : pd.process cPre = .defect msg) :
    ∃ jr, (pipelineRun (pre ++ pd :: post) (some job)).result = .propagated jr msg ∧
      (pre = [] → jr.pipeline_context = job.pipeline_context ∧
        jr.status = "in_progress") ∧
      (pre ≠ [] → jr.pipeline_context = some cPre ∧
        ∃ pl, pre.getLast? = some pl ∧ jr.status = checkpointStatus pl) ∧
      jr.error_message = job.error_message ∧
      jr.initial_ai_output = job.initial_ai_output ∧
      (pipelineRun (pre ++ pd :: post) (some job)).trace =
        (pipelineRun pre (some job)).trace.dropLast := by
  obtain ⟨tr, jE, hloop, hid, hown, hin, hout, hcorr, herr, hlast⟩ :=
    phaseLoop_of_chain pre { job with status := "in_progress" }
      (initContext job) cPre hpre
  have hnotfalse : ¬ pd.acceptsDbSession = false := by simp [hacc]
  have hstep : phaseLoop jE cPre (pd :: post) = ([], .raised jE msg) := by
    simp only [phaseLoop, if_neg hnotfalse, hdef]
  have happ := phaseLoop_append pre (pd :: post) _ (initContext job) tr jE cPre hloop
  have hrun : pipelineRun (pre ++ pd :: post) (some job) =
      { trace := { job with status := "in_progress" } :: (tr ++ []),
        result := .propagated jE msg } := by
    simp only [pipelineRun, happ, hstep]
  have hpreRun : pipelineRun pre (some job) =
      { trace := { job with status := "in_progress" } ::
          (tr ++ [{ jE with
            status := "completed",
            initial_ai_output := some cPre }]),
        result := .finished { jE with
          status := "completed",
          initial_ai_output := some cPre } } := by
    simp only [pipelineRun, hloop]
    rfl
  refine ⟨jE, ?_, ?_, ?_, herr, hout, ?_⟩
  · rw [hrun]
  · intro hpre0
    rcases hlast with ⟨_, hjE⟩ | ⟨hne, _, _⟩
    · rw [hjE]; exact ⟨rfl, rfl⟩
    · exact absurd hpre0 hne
  · intro hne
    rcases hlast with ⟨hpre0, _⟩ | ⟨_, hpc, pl, hgl, hst⟩
    · exact absurd hpre0 hne
    · exact ⟨hpc, pl, hgl, hst⟩
  · rw [hrun, hpreRun]
    dsimp only
    rw [List.append_nil, ← List.cons_append, List.dropLast_concat]

/-- C8 witness: `[phaseA, phaseDefect]` — the defect propagates and the
record keeps phase 1's checkpoint. -/
theorem run_defect_propagates_witness :
    chain (initContext jobW) [phaseA] =
      some [("content", "hello"), ("extracted_text", "hello")] ∧
    phaseDefect.acceptsDbSession = true ∧
    phaseDefect.process [("content", "hello"), ("extracted_text", "hello")] =
      .defect "RuntimeError: boom" ∧
    (∃ jr, (pipelineRun ([phaseA] ++ phaseDefect :: []) (some jobW)).result =
        .propagated jr "RuntimeError: boom" ∧
      ([phaseA] = ([] : List PhaseM) → jr.pipeline_context = jobW.pipeline_context ∧
        jr.status = "in_progress") ∧
      ([phaseA] ≠ ([] : List PhaseM) →
        jr.pipeline_context = some [("content", "hello"), ("extracted_text", "hello")] ∧
        ∃ pl, [phaseA].getLast? = some pl ∧ jr.status = checkpointStatus pl) ∧
      jr.error_message = jobW.error_message ∧
      jr.initial_ai_output = jobW.initial_ai_output ∧
      (pipelineRun ([phaseA] ++ phaseDefect :: []) (some jobW)).trace =
        (pipelineRun [phaseA] (some jobW)).trace.dropLast) :=
  ⟨by decide, rfl, by decide,
   run_defect_propagates jobW [phaseA] [] phaseDefect
     [("content", "hello"), ("extracted_text", "hello")] "RuntimeError: boom"
     (by decide) rfl (by decide)⟩

/-- C9: the Engine invokes `phase.process(context, db_session=...)` while
`HumanInTheLoopPhase.process` accepts only `(self, context)`, so the
invocation raises `TypeError`, which the Engine does not catch: the Gate
never completes (commits nothing) when run by the Engine as written,
whatever its body would do. -/
theorem hitl_gate_never_completes_typeerror (job : JobRec) (pre post : List PhaseM)
    (g : Ctx → PhaseOutcome) (cPre : Ctx)
    (hpre : chain (initContext job) pre = some cPre) :
    ∃ jr, (pipelineRun (pre ++ humanInTheLoopPhaseM g :: post) (some job)).result =
        .propagated jr "TypeError" ∧
      (pre = [] → jr.pipeline_context = job.pipeline_context) ∧
      (pre ≠ [] → jr.pipeline_context = some cPre) ∧
      (pipelineRun (pre ++ humanInTheLoopPhaseM g :: post) (some job)).trace =
        (pipelineRun pre (some job)).trace.dropLast ∧
      ∀ (g2 : Ctx → PhaseOutcome) (post2 : List PhaseM),
        pipelineRun (pre ++ humanInTheLoopPhaseM g2 :: post2) (some job) =
          pipelineRun (pre ++ humanInTheLoopPhaseM g :: post) (some job) := by
  obtain ⟨tr, jE, hloop, hid, hown, hin, hout, hcorr, herr, hlast⟩ :=
    phaseLoop_of_chain pre { job with status := "in_progress" }
      (initContext job) cPre hpre
  have hstep : ∀ (g2 : Ctx → PhaseOutcome) (post2 : List PhaseM),
      phaseLoop jE cPre (humanInTheLoopPhaseM g2 :: post2) =
        ([], .raised jE "TypeError") := by
    intro g2 post2
    simp [phaseLoop, humanInTheLoopPhaseM]
  have hrun : ∀ (g2 : Ctx → PhaseOutcome) (post2 : List PhaseM),
      pipelineRun (pre ++ humanInTheLoopPhaseM g2 :: post2) (some job) =
        { trace := { job with status := "in_progress" } :: (tr ++ []),
          result := .propagated jE "TypeError" } := by
    intro g2 post2
    have happ := phaseLoop_append pre (humanInTheLoopPhaseM g2 :: post2) _
      (initContext job) tr jE cPre hloop
    simp only [pipelineRun, happ, hstep]
  have hpreRun : pipelineRun pre (some job) =
      { trace := { job with status := "in_progress" } ::
          (tr ++ [{ jE with
            status := "completed",
            initial_ai_output := some cPre }]),
        result := .finished { jE with
          status := "completed",
          initial_ai_output := some cPre } } := by
    simp only [pipelineRun, hloop]
    rfl
  refine ⟨jE, ?_, ?_, ?_, ?_, ?_⟩
  · rw [hrun g post]
  · intro hpre0
    rcases hlast with ⟨_, hjE⟩ | ⟨hne, _, _⟩
    · rw [hjE]
    · exact absurd hpre0 hne
  · intro hne
    rcases hlast with ⟨hpre0, _⟩ | ⟨_, hpc, _⟩
    · exact absurd hpre0 hne
    · exact hpc
  · rw [hrun g post, hpreRun]
    dsimp only
    rw [List.append_nil, ← List.cons_append, List.dropLast_concat]
  · intro g2 post2
    rw [hrun g2 post2, hrun g post]

/-- C9 witness: `[phaseA, gate]` — the run propagates `TypeError` and the
gate commits nothing. -/
theorem hitl_gate_never_completes_typeerror_witness :
    chain (initContext jobW) [phaseA] =
      some [("content", "hello"), ("extracted_text", "hello")] ∧
    (∃ jr, (pipelineRun ([phaseA] ++
          humanInTheLoopPhaseM (fun c => .ok c) :: []) (some jobW)).result =
        .propagated jr "TypeError" ∧
      ([phaseA] = ([] : List PhaseM) → jr.pipeline_context = jobW.pipeline_context) ∧
      ([phaseA] ≠ ([] : List PhaseM) →
        jr.pipeline_context = some [("content", "hello"), ("extracted_text", "hello")]) ∧
      (pipelineRun ([phaseA] ++
          humanInTheLoopPhaseM (fun c => .ok c) :: []) (some jobW)).trace =
        (pipelineRun [phaseA] (some jobW)).trace.dropLast ∧
      ∀ (g2 : Ctx → PhaseOutcome) (post2 : List PhaseM),
        pipelineRun ([phaseA] ++ humanInTheLoopPhaseM g2 :: post2) (some jobW) =
          pipelineRun ([phaseA] ++
            humanInTheLoopPhaseM (fun c => .ok c) :: []) (some jobW)) :=
  ⟨by decide,
   hitl_gate_never_completes_typeerror jobW [phaseA] [] (fun c => .ok c)
     [("content", "hello"), ("extracted_text", "hello")] (by decide)⟩

/-- C10: a status a Phase writes and commits inside its body (such as a
Gate's `"pending_clarification"`) is immediately overwritten by the
engine's own checkpoint commit, which sets
`status = "completed_phase:<name>"`; if the Phase was the final one the
subsequent completion commit then sets `status = "completed"`.  A status
written inside a Phase never survives that Phase's own checkpoint. -/
theorem phase_status_write_overwritten (job : JobRec) (pre post : List PhaseM)
    (p : PhaseM) (cPre ctx2 : Ctx) (s : String)
    (hpre : chain (initContext job) pre = some cPre)
    (hacc : p.acceptsDbSession = true)
    (hsw : p.statusWrite cPre = some s)
    (hproc : p.process cPre = .ok ctx2) :
    ∃ jE t2,
      (pipelineRun (pre ++ p :: post) (some job)).trace =
        (pipelineRun pre (some job)).trace.dropLast ++
          ({ jE with status := s } :: checkpointRec jE p ctx2 :: t2) ∧
      (checkpointRec jE p ctx2).status = checkpointStatus p ∧
      (post = [] → ∃ jc,
        (pipelineRun (pre ++ p :: post) (some job)).result = .finished jc ∧
        jc.status = "completed" ∧ jc.initial_ai_output = some ctx2) := by
  obtain ⟨tr, jE, hloop, hid, hown, hin, hout, hcorr, herr, hlast⟩ :=
    phaseLoop_of_chain pre { job with status := "in_progress" }
      (initContext job) cPre hpre
  have hnotfalse : ¬ p.acceptsDbSession = false := by simp [hacc]
  have hstep : phaseLoop jE cPre (p :: post) =
      ({ jE with status := s } :: checkpointRec jE p ctx2 ::
        (phaseLoop (checkpointRec jE p ctx2) ctx2 post).1,
       (phaseLoop (checkpointRec jE p ctx2) ctx2 post).2) := by
    simp only [phaseLoop, if_neg hnotfalse, hproc, midCommits, hsw]
    simp
  have happ := phaseLoop_append pre (p :: post) _ (initContext job) tr jE cPre hloop
  have hpreRun : pipelineRun pre (some job) =
      { trace := { job with status := "in_progress" } ::
          (tr ++ [{ jE with
            status := "completed",
            initial_ai_output := some cPre }]),
        result := .finished { jE with
          status := "completed",
          initial_ai_output := some cPre } } := by
    simp only [pipelineRun, hloop]
    rfl
  cases hres : (phaseLoop (checkpointRec jE p ctx2) ctx2 post).2 with
  | ok jk ctxF =>
    refine ⟨jE, (phaseLoop (checkpointRec jE p ctx2) ctx2 post).1 ++
      [{ jk with status := "completed", initial_ai_output := some ctxF }],
      ?_, rfl, ?_⟩
    · rw [hpreRun]
      simp only [pipelineRun, happ, hstep, hres]
      rw [dropLast_cons_concat]
      simp [List.append_assoc]
    · intro hpost
      subst hpost
      have hfin : phaseLoop (checkpointRec jE p ctx2) ctx2 [] =
          ([], .ok (checkpointRec jE p ctx2) ctx2) := by
        simp [phaseLoop]
      refine ⟨{ jk with status := "completed", initial_ai_output := some ctxF },
        ?_, ?_, ?_⟩
      · simp only [pipelineRun, happ, hstep, hres]
      · rfl
      · rw [hfin] at hres
        have h2 : LoopRes.ok (checkpointRec jE p ctx2) ctx2 = .ok jk ctxF := hres
        injection h2 with h3 h4
        rw [← h4]
  | failed jf =>
    refine ⟨jE, (phaseLoop (checkpointRec jE p ctx2) ctx2 post).1, ?_, rfl, ?_⟩
    · rw [hpreRun]
      simp only [pipelineRun, happ, hstep, hres]
      rw [dropLast_cons_concat]
      simp
    · intro hpost
      subst hpost
      simp [phaseLoop] at hres
  | raised jr m =>
    refine ⟨jE, (phaseLoop (checkpointRec jE p ctx2) ctx2 post).1, ?_, rfl, ?_⟩
    · rw [hpreRun]
      simp only [pipelineRun, happ, hstep, hres]
      rw [dropLast_cons_concat]
      simp
    · intro hpost
      subst hpost
      simp [phaseLoop] at hres

/-- C10 witness: a gate-like phase writes `"pending_clarification"`, and
the very next committed state is the engine checkpoint
`"completed_phase:GateLikePhase"`; being final, the completion commit
then marks the job `"completed"`. -/
theorem phase_status_write_overwritten_witness :
    chain (initContext jobW) [] = some (initContext jobW) ∧
    phaseGateLike.acceptsDbSession = true ∧
    phaseGateLike.statusWrite (initContext jobW) = some "pending_clarification" ∧
    phaseGateLike.process (initContext jobW) = .ok (initContext jobW) ∧
    (∃ jE t2,
      (pipelineRun ([] ++ phaseGateLike :: []) (some jobW)).trace =
        (pipelineRun [] (some jobW)).trace.dropLast ++
          ({ jE with status := "pending_clarification" } ::
            checkpointRec jE phaseGateLike (initContext jobW) :: t2) ∧
      (checkpointRec jE phaseGateLike (initContext jobW)).status =
        checkpointStatus phaseGateLike ∧
      (([] : List PhaseM) = [] → ∃ jc,
        (pipelineRun ([] ++ phaseGateLike :: []) (some jobW)).result = .finished jc ∧
        jc.status = "completed" ∧ jc.initial_ai_output = some (initContext jobW))) :=
  ⟨rfl, rfl, rfl, rfl,
   phase_status_write_overwritten jobW [] [] phaseGateLike
     (initContext jobW) (initContext jobW) "pending_clarification"
     rfl rfl rfl rfl⟩

/-- C4: the engine persists context and status together in one atomic
commit after each successful Phase, and the committed states are mutually
consistent: any committed state whose status is the checkpoint label of
the i-th Phase carries exactly the context produced by running Phases 1..i
— an observer never reads a context newer than its recorded status or
vice versa.  Hypotheses: phase names are pairwise distinct (otherwise the
label is ambiguous), and no phase body itself commits a status of the
engine's checkpoint form through the store handle. -/
theorem checkpoint_consistency (job : JobRec) (ps : List PhaseM)
    (hnodup : (ps.map PhaseM.name).Nodup)
    (hmid : ∀ p ∈ ps, ∀ c s, p.statusWrite c = some s →
      ∀ nm : String, s ≠ "completed_phase:" ++ nm) :
    ∀ st ∈ (pipelineRun ps (some job)).trace, ∀ i, ∀ hi : i < ps.length,
      st.status = checkpointStatus (ps.get ⟨i, hi⟩) →
      st.pipeline_context = chain (initContext job) (ps.take (i + 1)) := by
  intro st hst i hi hsteq
  have hmain : st ∈ (phaseLoop { job with status := "in_progress" }
      (initContext job) ps).1 →
      st.pipeline_context = chain (initContext job) (ps.take (i + 1)) := by
    intro hmem
    rcases phaseLoop_trace_shape ps _ _ st hmem with
      hf | ⟨p, hp, c, s, hsw, hss⟩ | ⟨i2, hi2, hst2, hctx2⟩
    · exact absurd (hf.symm.trans hsteq)
        (ne_checkpointStatus_of_length (by decide) _)
    · have hcs : s = checkpointStatus (ps.get ⟨i, hi⟩) := hss.symm.trans hsteq
      exact absurd hcs (hmid p hp c s hsw _)
    · have hnames : (ps.get ⟨i2, hi2⟩).name = (ps.get ⟨i, hi⟩).name :=
        checkpointStatus_inj (hst2.symm.trans hsteq)
      have hieq : i2 = i := nodup_name_index ps hnodup i2 i hi2 hi hnames
      subst hieq
      exact hctx2
  have h11 : ("in_progress" : String).length < 16 := by decide
  have h9 : ("completed" : String).length < 16 := by decide
  cases hres : (phaseLoop { job with status := "in_progress" }
      (initContext job) ps).2 with
  | ok jk ctxF =>
    simp only [pipelineRun, hres] at hst
    simp only [List.mem_cons, List.mem_append, List.mem_singleton,
      List.not_mem_nil, or_false] at hst
    rcases hst with (h1 | hmem) | h2
    · rw [h1] at hsteq
      exact absurd hsteq (ne_checkpointStatus_of_length h11 _)
    · exact hmain hmem
    · rw [h2] at hsteq
      exact absurd hsteq (ne_checkpointStatus_of_length h9 _)
  | failed jf =>
    simp only [pipelineRun, hres] at hst
    simp only [List.mem_cons] at hst
    rcases hst with h1 | hmem
    · rw [h1] at hsteq
      exact absurd hsteq (ne_checkpointStatus_of_length h11 _)
    · exact hmain hmem
  | raised jr m =>
    simp only [pipelineRun, hres] at hst
    simp only [List.mem_cons] at hst
    rcases hst with h1 | hmem
    · rw [h1] at hsteq
      exact absurd hsteq (ne_checkpointStatus_of_length h11 _)
    · exact hmain hmem

/-- C4 witness: on the two-phase example run, every committed state whose
status names a phase carries exactly that phase's chained context. -/
theorem checkpoint_consistency_witness :
    ([phaseA, phaseB].map PhaseM.name).Nodup ∧
    (∀ st ∈ (pipelineRun [phaseA, phaseB] (some jobW)).trace,
      ∀ i, ∀ hi : i < [phaseA, phaseB].length,
      st.status = checkpointStatus ([phaseA, phaseB].get ⟨i, hi⟩) →
      st.pipeline_context =
        chain (initContext jobW) ([phaseA, phaseB].take (i + 1))) :=
  ⟨by decide,
   checkpoint_consistency jobW [phaseA, phaseB] (by decide)
     (by
       intro p hp c s hsw nm
       rcases List.mem_pair.mp hp with h | h <;>
         · subst h; simp [phaseA, phaseB] at hsw)⟩

/-- `initContext` depends only on `pipeline_context` and `input_data`. -/
lemma initContext_congr (a b : JobRec)
    (hp : a.pipeline_context = b.pipeline_context)
    (hi : a.input_data = b.input_data) : initContext a = initContext b := by
  unfold initContext
  rw [hp, hi]

/-- C6 (amended): `Pipeline.run` initializes its working context from the
persisted `pipeline_context` when that is present *and non-empty*
(Python's `or` also falls through on an empty dict), and otherwise from
`input_data`; re-invoking the Engine replays the whole Phase list with no
record of which Phases already ran — the run is completely insensitive to
the job's prior status, only the checkpointed context carries information
forward. -/
theorem init_context_and_replay :
    (∀ (j : JobRec) (c : Ctx), j.pipeline_context = some c → c ≠ [] →
      initContext j = c) ∧
    (∀ j : JobRec, j.pipeline_context = none ∨ j.pipeline_context = some [] →
      initContext j = j.input_data) ∧
    (∀ (ps : List PhaseM) (j : JobRec) (s1 s2 : String),
      pipelineRun ps (some { j with status := s1 }) =
        pipelineRun ps (some { j with status := s2 })) := by
  refine ⟨?_, ?_, ?_⟩
  · intro j c h hne
    simp [initContext, h, hne]
  · intro j h
    rcases h with h | h <;> simp [initContext, h]
  · intro ps j s1 s2
    rfl

/-- C6 counterexample: `job6` has a *present* persisted context (the
empty dict), yet the working context is initialized from `input_data`,
not from the persisted context — `pipeline_context or input_data` tests
truthiness, not presence. -/
theorem init_context_counterexample :
    job6.pipeline_context = some [] ∧
    initContext job6 = [("a", "1")] ∧
    initContext job6 ≠ [] :=
  ⟨rfl, by decide, by decide⟩

/-- C6 witness: a non-empty persisted checkpoint is used as the working
context, and a run's behaviour does not depend on the stored status. -/
theorem init_context_and_replay_witness :
    initContext job7 = [("x", "1")] ∧
    pipelineRun [phaseA] (some { jobW with status := "completed" }) =
      pipelineRun [phaseA] (some { jobW with status := "pending_correction" }) :=
  ⟨init_context_and_replay.1 job7 [("x", "1")] rfl (by decide),
   init_context_and_replay.2.2 [phaseA] jobW "completed" "pending_correction"⟩

/-- C7 (amended): re-running a completed job with the same Phase list
re-executes every Phase against the already-completed context and yields
the same final output, *provided* the completed final context is
non-empty (an empty one is falsy, so the second run would restart from
`input_data` instead) and the Phase list reproduces its own output
(`chain cF ps = some cF`, the list-level idempotence the spec asks of
Phases). -/
theorem rerun_after_completion (job : JobRec) (ps : List PhaseM) (cF : Ctx)
    (h1 : chain (initContext job) ps = some cF)
    (h2 : chain cF ps = some cF)
    (hne : cF ≠ []) :
    ∃ jc, (pipelineRun ps (some job)).result = .finished jc ∧
      jc.status = "completed" ∧ jc.initial_ai_output = some cF ∧
      initContext jc = cF ∧
      ∃ jc2, (pipelineRun ps (some jc)).result = .finished jc2 ∧
        jc2.status = "completed" ∧ jc2.initial_ai_output = some cF := by
  obtain ⟨tr, jE, hloop, hid, hown, hin, hout, hcorr, herr, hlast⟩ :=
    phaseLoop_of_chain ps { job with status := "in_progress" }
      (initContext job) cF h1
  have hinit : initContext { jE with
      status := "completed", initial_ai_output := some cF } = cF := by
    rcases hlast with ⟨hps, hjE⟩ | ⟨hne2, hpc, _⟩
    · subst hps
      simp only [chain, Option.some.injEq] at h1
      have hcg : initContext { jE with
          status := "completed", initial_ai_output := some cF } =
          initContext job := by
        apply initContext_congr
        · rw [hjE]
        · rw [hjE]
      rw [hcg, h1]
    · have hgoal : initContext { jE with
          status := "completed",
          initial_ai_output := some cF } = initContext jE := by
        apply initContext_congr <;> rfl
      rw [hgoal]
      unfold initContext
      rw [hpc]
      simp [hne]
  obtain ⟨tr2, jE2, hloop2, _, _, _, _, _, _, _⟩ :=
    phaseLoop_of_chain ps { { jE with
        status := "completed",
        initial_ai_output := some cF } with status := "in_progress" }
      (initContext { jE with
        status := "completed",
        initial_ai_output := some cF }) cF (by rw [hinit]; exact h2)
  refine ⟨{ jE with status := "completed", initial_ai_output := some cF },
    ?_, rfl, rfl, hinit,
    { jE2 with status := "completed", initial_ai_output := some cF },
    ?_, rfl, rfl⟩
  · simp only [pipelineRun, hloop]
  · simp only [pipelineRun, hloop2]

/-- C7 counterexample: `phase7` is idempotent (re-running it on any
context it produced returns that context unchanged), `job7` completes
run 1 with final output the empty dict, yet run 2 completes with a
*different* output: the empty completed context is falsy, so run 2
restarted from `input_data` rather than from the completed context. -/
theorem rerun_counterexample :
    (∀ c c2, phase7.process c = .ok c2 → phase7.process c2 = .ok c2) ∧
    (pipelineRun [phase7] (some job7)).result = .finished job7done ∧
    job7done.status = "completed" ∧
    job7done.initial_ai_output = some [] ∧
    (pipelineRun [phase7] (some job7done)).result = .finished job7redone ∧
    job7redone.status = "completed" ∧
    job7redone.initial_ai_output = some [("z", "9")] ∧
    job7done.initial_ai_output ≠ job7redone.initial_ai_output := by
  refine ⟨?_, by decide, rfl, rfl, by decide, rfl, rfl, by decide⟩
  intro c c2 h
  simp only [phase7] at h ⊢
  by_cases e1 : c = [("y", "2")]
  · rw [if_pos e1] at h
    injection h with h2
    subst h2
    decide
  · rw [if_neg e1] at h
    by_cases e2 : c = [("z", "9")]
    · rw [if_pos e2] at h
      injection h with h2
      subst h2
      decide
    · rw [if_neg e2] at h
      injection h with h2
      subst h2
      decide

/-- C7 witness: with the genuinely idempotent `phaseIdem`, run 1
completes `jobW` and run 2 re-executes the phase against the completed
context and returns the same output. -/
theorem rerun_after_completion_witness :
    chain (initContext jobW) [phaseIdem] =
      some [("content", "hello"), ("done", "1")] ∧
    chain [("content", "hello"), ("done", "1")] [phaseIdem] =
      some [("content", "hello"), ("done", "1")] ∧
    ([("content", "hello"), ("done", "1")] : Ctx) ≠ [] ∧
    (∃ jc, (pipelineRun [phaseIdem] (some jobW)).result = .finished jc ∧
      jc.status = "completed" ∧
      jc.initial_ai_output = some [("content", "hello"), ("done", "1")] ∧
      initContext jc = [("content", "hello"), ("done", "1")] ∧
      ∃ jc2, (pipelineRun [phaseIdem] (some jc)).result = .finished jc2 ∧
        jc2.status = "completed" ∧
        jc2.initial_ai_output = some [("content", "hello"), ("done", "1")]) :=
  ⟨by decide, by decide, by decide,
   rerun_after_completion jobW [phaseIdem]
     [("content", "hello"), ("done", "1")] (by decide) (by decide) (by decide)⟩

/-- C3 (amended): for a job whose Detector returns `n ≥ 1` entries, after
the Gate phase body runs, exactly `n` new Clarification Requests exist,
each `pending` and owned by the job's owner, each carrying its detector
entry's tag and `context_data` verbatim (so a request references the
job's id exactly when the detector put a `job_id` into that entry's
`context_data` — the request table has no `job_id` column of its own),
and the job's status is `"pending_clarification"` (the waiting status);
when the Detector returns no entries, nothing is created and the job's
status is left unchanged. -/
theorem gate_creates_pending_requests (detect : JobRec → List DetectEntry)
    (jid : Nat) (hjid : jid ≠ 0) (context : Ctx) (st : Store) (job : JobRec)
    (hjob : st.getJob jid = some job) :
    (detect job = [] →
      hitlProcess detect (some jid) true context st = (.ok context, st)) ∧
    (detect job ≠ [] →
      ∃ st2, hitlProcess detect (some jid) true context st = (.ok context, st2) ∧
        st2.requests = st.requests ++
          mkRequests job.owner_id st.nextRequestId (detect job) ∧
        st2.requests.length = st.requests.length + (detect job).length ∧
        (∀ r ∈ mkRequests job.owner_id st.nextRequestId (detect job),
          r.status = "pending" ∧ r.owner_id = job.owner_id ∧
          ∃ e ∈ detect job, r.request_type = e.request_type ∧
            r.context_data = e.context_data) ∧
        st2.getJob jid = some { job with status := "pending_clarification" }) := by
  cases jid with
  | zero => exact absurd rfl hjid
  | succ n =>
    constructor
    · intro hdet
      simp [hitlProcess, hjob, hdet]
    · intro hne
      refine ⟨{ (st.updateJob (n + 1) { job with status := "pending_clarification" }) with
          requests := st.requests ++
            mkRequests job.owner_id st.nextRequestId (detect job),
          nextRequestId := st.nextRequestId + (detect job).length },
        ?_, rfl, ?_, ?_, ?_⟩
      · simp only [hitlProcess, hjob]
        rw [if_neg hne]
      · simp [mkRequests_length]
      · intro r hr
        obtain ⟨ha, hb, _, e, he, hc, hd⟩ :=
          mkRequests_mem job.owner_id (detect job) st.nextRequestId r hr
        exact ⟨ha, hb, e, he, hc, hd⟩
      · have hjob2 : st.jobs.find? (fun j => j.id == (n + 1)) = some job := hjob
        have hpred : (({ job with status := "pending_clarification" } : JobRec).id
            == (n + 1)) = true := by
          have hp := List.find?_some hjob2
          simpa using hp
        exact find?_map_update (fun j => j.id == (n + 1))
          { job with status := "pending_clarification" } hpred st.jobs job hjob2

/-- C3 counterexample: (a) a Detector returning zero entries leaves the
job's status unchanged (`"in_progress"`, not the waiting status), so the
claim's unconditional "the job's status is the waiting-for-human status"
fails at `n = 0`; (b) a Detector entry whose `context_data` omits
`job_id` yields a Clarification Request that references the job's id
nowhere — the `FoundryClarificationRequest` model has no `job_id` column,
so "each one referencing that job's id" fails as well. -/
theorem gate_counterexample :
    hitlProcess detectorNone (some 3) true [] store3 = (.ok [], store3) ∧
    store3.getJob 3 = some job3 ∧
    job3.status = "in_progress" ∧
    ("in_progress" : String) ≠ "pending_clarification" ∧
    (hitlProcess detectorOne (some 3) true [] store3).2.requests =
      [requestUnlinked] ∧
    ¬ requestUnlinked.referencesJob 3 :=
  ⟨by decide, by decide, rfl, by decide, by decide, by decide⟩

/-- C3 witness: `detectorLinked` returns one entry for `job3`; the Gate
creates exactly one pending request owned by the job's owner and parks
the job in `"pending_clarification"`. -/
theorem gate_creates_pending_requests_witness :
    (3 : Nat) ≠ 0 ∧
    store3.getJob 3 = some job3 ∧
    ((detectorLinked job3 = [] →
      hitlProcess detectorLinked (some 3) true [] store3 = (.ok [], store3)) ∧
    (detectorLinked job3 ≠ [] →
      ∃ st2, hitlProcess detectorLinked (some 3) true [] store3 =
          (.ok [], st2) ∧
        st2.requests = store3.requests ++
          mkRequests job3.owner_id store3.nextRequestId (detectorLinked job3) ∧
        st2.requests.length =
          store3.requests.length + (detectorLinked job3).length ∧
        (∀ r ∈ mkRequests job3.owner_id store3.nextRequestId
            (detectorLinked job3),
          r.status = "pending" ∧ r.owner_id = job3.owner_id ∧
          ∃ e ∈ detectorLinked job3, r.request_type = e.request_type ∧
            r.context_data = e.context_data) ∧
        st2.getJob 3 = some { job3 with status := "pending_clarification" })) :=
  ⟨by decide, by decide,
   gate_creates_pending_requests detectorLinked 3 (by decide) [] store3 job3
     (by decide)⟩

/-- C5 (amended): the resolution endpoint marks the request `"resolved"`
and writes the audit record `{"resolved_by": "user"}` — not the
submitted answer — into `resolution_data`, while the answer itself lands
in the referenced job's `corrected_output`; and it performs **no**
already-resolved check, so it does this for *any* stored request, pending
or already resolved: a second resolution attempt silently succeeds
instead of being rejected. -/
theorem resolve_no_double_resolution_check (parseForm : Ctx → Ctx) (rid : Nat)
    (answer : Ctx) (st : Store) (req : ClarReq) (jid : Nat) (job : JobRec)
    (hreq : st.getReq rid = some req)
    (hjid : (req.context_data.lookup "job_id").bind parseNat = some jid)
    (hjob : st.getJob jid = some job) :
    ∃ st2, resolveClarification parseForm rid answer st = .ok st2 ∧
      st2.getReq rid = some { req with
        status := "resolved",
        resolution_data := some [("resolved_by", "user")] } ∧
      st2.getJob jid = some { job with
        corrected_output := some (parseForm answer),
        status := "completed" } := by
  refine ⟨(st.updateJob jid { job with
      corrected_output := some (parseForm answer),
      status := "completed" }).updateReq rid { req with
      status := "resolved",
      resolution_data := some [("resolved_by", "user")] }, ?_, ?_, ?_⟩
  · simp only [resolveClarification, hreq, hjid, hjob]
  · have hreq2 : st.requests.find? (fun r => r.id == rid) = some req := hreq
    have hpred : (({ req with
        status := "resolved",
        resolution_data := some [("resolved_by", "user")] } : ClarReq).id
        == rid) = true := by
      have hp := List.find?_some hreq2
      simpa using hp
    exact find?_map_update (fun r => r.id == rid) _ hpred st.requests req hreq2
  · have hjob2 : st.jobs.find? (fun j => j.id == jid) = some job := hjob
    have hpred : (({ job with
        corrected_output := some (parseForm answer),
        status := "completed" } : JobRec).id == jid) = true := by
      have hp := List.find?_some hjob2
      simpa using hp
    exact find?_map_update (fun j => j.id == jid) _ hpred st.jobs job hjob2

/-- C5 counterexample: request 9 in `store5` is already `"resolved"`, yet
`resolveClarification` succeeds again (returns `.ok`, no rejection), and
the `resolution_data` it writes is the audit record
`{"resolved_by": "user"}`, not the submitted answer `answer5` —
shown for the pending request 10 as well. -/
theorem resolve_counterexample :
    store5.getReq 9 = some reqResolved ∧
    reqResolved.status = "resolved" ∧
    resolveClarification (fun a => a) 9 answer5 store5 = .ok store5after ∧
    store5after.getReq 9 = some reqResolved ∧
    resolveClarification (fun a => a) 10 answer5 store5 = .ok store5after2 ∧
    store5after2.getReq 10 = some reqPendingAfter ∧
    reqPendingAfter.resolution_data = some [("resolved_by", "user")] ∧
    reqPendingAfter.resolution_data ≠ some answer5 :=
  ⟨by decide, rfl, rfl, by decide, rfl, by decide, rfl, by decide⟩

/-- C5 witness: resolving the pending request 10 of `store5` marks it
resolved with the audit record and corrects the referenced job. -/
theorem resolve_no_double_resolution_check_witness :
    store5.getReq 10 = some reqPending ∧
    (reqPending.context_data.lookup "job_id").bind parseNat = some 5 ∧
    store5.getJob 5 = some job5 ∧
    (∃ st2, resolveClarification (fun a => a) 10 answer5 store5 = .ok st2 ∧
      st2.getReq 10 = some { reqPending with
        status := "resolved",
        resolution_data := some [("resolved_by", "user")] } ∧
      st2.getJob 5 = some { job5 with
        corrected_output := some answer5,
        status := "completed" }) :=
  ⟨by decide, by decide, by decide,
   resolve_no_double_resolution_check (fun a => a) 10 answer5 store5 reqPending
     5 job5 (by decide) (by decide) (by decide)⟩

end Foundry
